import Mathlib

/-!
Verification of the snapshot/restore core of a small entity-component
serialization program (src/main.cpp).  The C++ core is a pair of function
templates, `serialize_registry` and `deserialize_registry`, generic over a
compile-time list of component types and of context-variable types, plus
codec overloads for `std::optional<T>` and for `entt::entity` identifiers.

Shallow-embedding conventions:
* The typed archive stream (cereal) is modelled as a list of primitive
  tokens (integers and booleans); floats are represented by their 32-bit
  patterns as naturals, faithful because the program never computes with
  serialized values, it only copies them.
* A C++ component type is modelled by a `CompTy`: a Lean type together with
  its codec, whether it is an empty (stateless) C++ type, and its
  default-constructed value.
* `entt::registry` is modelled by `Store`: the list of live entity
  identifiers in iteration order plus, per declared component type, a map
  from identifiers to optional component values, plus one optional value
  per declared context type.
* Entity identifiers are the 32-bit patterns of `entt::entity`
  (20 index bits, 12 version bits), modelled as `Nat`.
-/

/-- A primitive value written to or read from the archive.  Models the
stream interface at the granularity the program uses it: integers
(including float bit patterns and sequence lengths) and booleans. -/
inductive Token where
  | num : Nat → Token
  | bool : Bool → Token
deriving DecidableEq

/-- An encoder/decoder pair for one serializable value type. -/
structure Codec (α : Type) where
  enc : α → List Token
  dec : List Token → Option (α × List Token)

/-- A codec is lawful when decoding an encoding returns the value and
consumes exactly the encoding. -/
def Codec.lawful {α : Type} (c : Codec α) : Prop :=
  ∀ (a : α) (rest : List Token), c.dec (c.enc a ++ rest) = some (a, rest)

/-- Model of `cereal::save` for `std::optional<T>` (main.cpp lines 17-24): write the
presence flag, then the payload only when a value is present. -/
def saveOptional {α : Type} (c : Codec α) : Option α → List Token
  | some v => Token.bool true :: c.enc v
  | none => [Token.bool false]

/-- Model of `cereal::load` for `std::optional<T>` (main.cpp lines 26-37): read the
flag; on `true` read a payload and emplace it, on `false` reset the
destination.  `dest` is the destination optional passed by reference; the
C++ overwrites it on both branches, so the result never consults it. -/
def loadOptional {α : Type} (c : Codec α) (dest : Option α) :
    List Token → Option (Option α × List Token)
  | Token.bool true :: ts =>
    match c.dec ts with
    | some (v, ts1) => some (some v, ts1)
    | none => none
  | Token.bool false :: ts => some (none, ts)
  | _ => none

/-- The codec for `std::optional<T>` induced by a payload codec (the load
side starts from a default-constructed, empty destination). -/
def optionalCodec {α : Type} (c : Codec α) : Codec (Option α) :=
  ⟨saveOptional c, loadOptional c none⟩

/-- Model of `save` for `entt::entity` (main.cpp lines 141-144): the identifier is
cast to the 32-bit `entt::id_type` and written as one integer. -/
def saveEntity (e : Nat) : List Token :=
  [Token.num (e % 4294967296)]

/-- Model of `load` for `entt::entity` (main.cpp lines 146-151): read the 32-bit
integer and cast it back to `entt::entity`. -/
def loadEntity : List Token → Option (Nat × List Token)
  | Token.num n :: ts => some (n % 4294967296, ts)
  | _ => none

/-- A codec for naturals below 2^32, standing for any fixed-width scalar
field (for instance one float bit pattern) when instantiating claims. -/
def natCodec : Codec Nat :=
  ⟨fun n => [Token.num n],
   fun ts =>
     match ts with
     | Token.num n :: r => some (n, r)
     | _ => none⟩

/-- A declared C++ component (or context-variable) type: its value type,
its codec, whether it is an empty class type (`std::is_empty_v`), and its
default-constructed value `Components{}`. -/
structure CompTy : Type 1 where
  carrier : Type
  codec : Codec carrier
  isEmptyTy : Bool
  defaultVal : carrier

/-- The per-type sequences of a snapshot: for each declared component type,
the vector of (entity identifier, component value) pairs
(`RegistryArchive::components`, main.cpp lines 46-48). -/
abbrev HSeq : List CompTy → Type
  | [] => PUnit
  | c :: cs => List (Nat × c.carrier) × HSeq cs

/-- The per-type component storage of a registry: for each declared
component type, a map from entity identifier to an optional value. -/
abbrev HMap : List CompTy → Type
  | [] => PUnit
  | c :: cs => (Nat → Option c.carrier) × HMap cs

/-- The per-type context-variable slots: one optional value per declared
context type (`RegistryArchive::context_vars`, and `registry.ctx()`). -/
abbrev HCtx : List CompTy → Type
  | [] => PUnit
  | c :: cs => Option c.carrier × HCtx cs

/-- The model of `entt::registry` restricted to the declared schema:
the live entity identifiers in iteration order, the component storage, and
the context variables. -/
structure Store (cs xs : List CompTy) : Type where
  entities : List Nat
  comps : HMap cs
  ctxv : HCtx xs

/-- Component storage with no components attached. -/
def emptyMap : (cs : List CompTy) → HMap cs
  | [] => PUnit.unit
  | _ :: cs => (fun _ => none, emptyMap cs)

/-- Context storage with every slot absent. -/
def emptyCtx : (xs : List CompTy) → HCtx xs
  | [] => PUnit.unit
  | _ :: xs => (none, emptyCtx xs)

/-- A freshly constructed registry (`entt::registry()`): no entities, no
components, no context variables. -/
def emptyStore (cs xs : List CompTy) : Store cs xs :=
  ⟨[], emptyMap cs, emptyCtx xs⟩

/-- Contribution of one entity to the snapshot sequence of one component type
(main.cpp lines 61-75): when `registry.any_of<C>(ent)` holds, append the
pair; for an empty class type the default-constructed value `C{}` is
appended instead of `registry.get<C>(ent)`. -/
def seqStep (c : CompTy) (f : Nat → Option c.carrier)
    (acc : List (Nat × c.carrier)) (e : Nat) : List (Nat × c.carrier) :=
  match f e with
  | some v => acc ++ [(e, if c.isEmptyTy then c.defaultVal else v)]
  | none => acc

/-- The capture-loop pass of one component type: walk the entities in
iteration order, appending the holders. -/
def buildSeq (c : CompTy) (f : Nat → Option c.carrier) (es : List Nat) :
    List (Nat × c.carrier) :=
  es.foldl (seqStep c f) []

/-- All component-type passes of the capture loop, producing the
`snapshot.components` tuple. -/
def buildComponents : (cs : List CompTy) → HMap cs → List Nat → HSeq cs
  | [], _, _ => PUnit.unit
  | _ :: cs, ms, es => (buildSeq _ ms.1 es, buildComponents cs ms.2 es)

/-- The context-variable passes of capture (main.cpp lines 79-86): each
snapshot slot starts empty (`std::optional` default construction) and is
emplaced from `registry.ctx().find<T>()` when that returns a value. -/
def buildCtx : (xs : List CompTy) → HCtx xs → HCtx xs
  | [], _ => PUnit.unit
  | _ :: xs, os =>
    ((match os.1 with
      | some v => some v
      | none => none), buildCtx xs os.2)

/-- The in-memory snapshot built by `serialize_registry` before archiving. -/
def buildSnapshot {cs xs : List CompTy} (S : Store cs xs) :
    HSeq cs × HCtx xs :=
  (buildComponents cs S.comps S.entities, buildCtx xs S.ctxv)

/-- Encoding of one component sequence: cereal writes a `std::vector` as
its length followed by its elements, each element being an entity
identifier then the component value. -/
def encodeSeq (c : CompTy) (s : List (Nat × c.carrier)) : List Token :=
  Token.num s.length ::
    (s.map (fun p => saveEntity p.1 ++ c.codec.enc p.2)).flatten

/-- Encoding of the `snapshot.components` tuple, type by type in declared
order (the tuple layout of the archive call, main.cpp line 88). -/
def encodeComponents : (cs : List CompTy) → HSeq cs → List Token
  | [], _ => []
  | c :: cs, ss => encodeSeq c ss.1 ++ encodeComponents cs ss.2

/-- Encoding of the `snapshot.context_vars` tuple via the optional codec. -/
def encodeCtx : (xs : List CompTy) → HCtx xs → List Token
  | [], _ => []
  | x :: xs, os => saveOptional x.codec os.1 ++ encodeCtx xs os.2

/-- Model of `serialize_registry` (main.cpp lines 52-89): build the snapshot from
the registry, then archive `snapshot.components` followed by
`snapshot.context_vars`. -/
def serialize_registry {cs xs : List CompTy} (S : Store cs xs) :
    List Token :=
  encodeComponents cs (buildSnapshot S).1 ++ encodeCtx xs (buildSnapshot S).2

/-- Decoding of `n` (identifier, value) pairs of one component type. -/
def decodePairs (c : CompTy) :
    Nat → List Token → Option (List (Nat × c.carrier) × List Token)
  | 0, ts => some ([], ts)
  | n + 1, ts =>
    match loadEntity ts with
    | none => none
    | some (e, ts1) =>
      match c.codec.dec ts1 with
      | none => none
      | some (v, ts2) =>
        match decodePairs c n ts2 with
        | none => none
        | some (l, ts3) => some ((e, v) :: l, ts3)

/-- Decoding of one component sequence: read the vector length, then that
many pairs. -/
def decodeSeq (c : CompTy) :
    List Token → Option (List (Nat × c.carrier) × List Token)
  | Token.num n :: ts => decodePairs c n ts
  | _ => none

/-- Decoding of the components tuple, type by type in declared order. -/
def decodeComponents :
    (cs : List CompTy) → List Token → Option (HSeq cs × List Token)
  | [], ts => some (PUnit.unit, ts)
  | c :: cs, ts =>
    match decodeSeq c ts with
    | none => none
    | some (s, ts1) =>
      match decodeComponents cs ts1 with
      | none => none
      | some (ss, ts2) => some ((s, ss), ts2)

/-- Decoding of the context tuple: each slot is loaded into a
default-constructed (empty) `std::optional` by `cereal::load`. -/
def decodeCtx :
    (xs : List CompTy) → List Token → Option (HCtx xs × List Token)
  | [], ts => some (PUnit.unit, ts)
  | x :: xs, ts =>
    match loadOptional x.codec none ts with
    | none => none
    | some (o, ts1) =>
      match decodeCtx xs ts1 with
      | none => none
      | some (os, ts2) => some ((o, os), ts2)

/-- The archive read of `deserialize_registry` (main.cpp line 102):
components tuple, then context tuple.  Any failure to read a token is a
decode failure (a thrown cereal exception). -/
def decodeSnapshot (cs xs : List CompTy) (ts : List Token) :
    Option ((HSeq cs × HCtx xs) × List Token) :=
  match decodeComponents cs ts with
  | none => none
  | some (ss, ts1) =>
    match decodeCtx xs ts1 with
    | none => none
    | some (os, ts2) => some ((ss, os), ts2)

/-- One pair of the rebuild loop (main.cpp lines 108-113): if the decoded
identifier is not yet valid, create an entity with exactly that identifier
(`registry.create(entity)` with a free hint preserves the full bit
pattern), then `emplace_or_replace` the component on it. -/
def applyPair (c : CompTy) (p : Nat × c.carrier)
    (f : Nat → Option c.carrier) (es : List Nat) :
    (Nat → Option c.carrier) × List Nat :=
  (fun e => if e = p.1 then some p.2 else f e,
   if p.1 ∈ es then es else es ++ [p.1])

/-- The rebuild-loop pass of one component type over its decoded pairs. -/
def applySeq (c : CompTy) :
    List (Nat × c.carrier) → (Nat → Option c.carrier) → List Nat →
      (Nat → Option c.carrier) × List Nat
  | [], f, es => (f, es)
  | p :: rest, f, es =>
    applySeq c rest (applyPair c p f es).1 (applyPair c p f es).2

/-- All component-type passes of the rebuild loop, threading the entity
list (creation is shared across types) in declared type order. -/
def rebuildComponents :
    (cs : List CompTy) → HSeq cs → HMap cs → List Nat → HMap cs × List Nat
  | [], _, _, es => (PUnit.unit, es)
  | _ :: cs, ss, ms, es =>
    (((applySeq _ ss.1 ms.1 es).1,
        (rebuildComponents cs ss.2 ms.2 (applySeq _ ss.1 ms.1 es).2).1),
      (rebuildComponents cs ss.2 ms.2 (applySeq _ ss.1 ms.1 es).2).2)

/-- Model of `set_context_var` (main.cpp lines 91-96): when the decoded optional
holds a value, `registry.ctx().emplace<T>` it; `emplace` keeps an already
present value and installs the new one otherwise. -/
def set_context_var (x : CompTy) (cur : Option x.carrier)
    (o : Option x.carrier) : Option x.carrier :=
  match o with
  | some v =>
    match cur with
    | some w => some w
    | none => some v
  | none => cur

/-- The context-variable passes of the rebuild (main.cpp lines 117-121). -/
def rebuildCtx : (xs : List CompTy) → HCtx xs → HCtx xs → HCtx xs
  | [], _, _ => PUnit.unit
  | x :: xs, os, cur => (set_context_var x cur.1 os.1, rebuildCtx xs os.2 cur.2)

/-- The store produced by applying a decoded snapshot to a freshly reset
registry (`registry = entt::registry()` then the rebuild loops). -/
def rebuildStore (cs xs : List CompTy) (snap : HSeq cs × HCtx xs) :
    Store cs xs :=
  { entities := (rebuildComponents cs snap.1 (emptyMap cs) []).2
    comps := (rebuildComponents cs snap.1 (emptyMap cs) []).1
    ctxv := rebuildCtx xs snap.2 (emptyCtx xs) }

/-- Model of `deserialize_registry` (main.cpp lines 98-122): read the snapshot from
the archive (before touching the registry — a failed read throws and
leaves the registry as it was), then reset the registry and rebuild.  The
boolean records successful completion. -/
def deserialize_registry (cs xs : List CompTy) (old : Store cs xs)
    (ts : List Token) : Store cs xs × Bool :=
  match decodeSnapshot cs xs ts with
  | none => (old, false)
  | some (snap, _) => (rebuildStore cs xs snap, true)

/-- Per-entity capture step across all declared component types: the body
of the `registry.each` callback (main.cpp lines 59-77). -/
def appendRow : (cs : List CompTy) → HMap cs → Nat → HSeq cs → HSeq cs
  | [], _, _, _ => PUnit.unit
  | _ :: cs, ms, e, acc => (seqStep _ ms.1 acc.1 e, appendRow cs ms.2 e acc.2)

/-- The default-constructed `RegistryArchive`: every sequence empty. -/
def emptyHSeq : (cs : List CompTy) → HSeq cs
  | [] => PUnit.unit
  | _ :: cs => ([], emptyHSeq cs)

/-- Model of `registry.each` as a const member function: it yields the entity
enumeration and leaves the registry as it was. -/
def regEach {cs xs : List CompTy} (S : Store cs xs) :
    List Nat × Store cs xs :=
  (S.entities, S)

/-- Model of `serialize_registry` in explicit state-passing form: the registry is
threaded through the entity loop and the context pass, every access being
a const read, and is returned alongside the archived tokens.  Used to
state that capture has no side effect on the source store. -/
def serialize_registry_s {cs xs : List CompTy} (S : Store cs xs) :
    List Token × Store cs xs :=
  let p0 := regEach S
  let p1 := p0.1.foldl
    (fun p e => (appendRow cs p.2.comps e p.1, p.2)) (emptyHSeq cs, p0.2)
  let cx := buildCtx xs p1.2.ctxv
  (encodeComponents cs p1.1 ++ encodeCtx xs cx, p1.2)

/-- A concrete scalar component type standing for a single 32-bit field. -/
abbrev natC : CompTy :=
  ⟨Nat, natCodec, false, 0⟩

/-- A store holding one entity with one scalar component, used to exhibit
schema-mismatch behaviour. -/
def storeC5 : Store [natC] [] :=
  ⟨[1], (fun e => if e = 1 then some 7 else none, PUnit.unit), PUnit.unit⟩

/-- Distinct identifiers in play must have distinct 20-bit index parts:
`entt` stores one entity per index slot, and `registry.create(hint)` only
preserves the hint when its index slot is free (otherwise the loop at
main.cpp lines 108-113 would attach a component to an invalid entity).
This is an invariant of every real registry and of every snapshot it
captures. -/
abbrev idInj (l : List Nat) : Prop :=
  ∀ a ∈ l, ∀ b ∈ l, a % 1048576 = b % 1048576 → a = b

/-- Components are only attached to live entities (an `entt` invariant). -/
def HMapValid : (cs : List CompTy) → HMap cs → List Nat → Prop
  | [], _, _ => True
  | _ :: cs, ms, es =>
    (∀ e, (ms.1 e).isSome = true → e ∈ es) ∧ HMapValid cs ms.2 es

/-- Well-formedness of a store, as maintained by `entt::registry`: the
enumeration lists each live entity once, identifiers fit in 32 bits and
have pairwise distinct index parts, and components sit on live entities. -/
def StoreWF {cs xs : List CompTy} (S : Store cs xs) : Prop :=
  S.entities.Nodup ∧ (∀ e ∈ S.entities, e < 4294967296) ∧
    idInj S.entities ∧ HMapValid cs S.comps S.entities

/-- The entity holds at least one of the declared component types. -/
def HasSomeComp : (cs : List CompTy) → HMap cs → Nat → Prop
  | [], _, _ => False
  | _ :: cs, ms, e => (ms.1 e).isSome = true ∨ HasSomeComp cs ms.2 e

/-- The codecs of the declared types are lawful, and empty class types have a
single value (what `std::is_empty_v` guarantees structurally). -/
def SchemaOk : List CompTy → Prop
  | [] => True
  | c :: cs =>
    c.codec.lawful ∧ (c.isEmptyTy = true → ∀ a b : c.carrier, a = b) ∧
      SchemaOk cs

/-- Within the sequence of each component type, identifiers appear at most
once. -/
def SeqKeysNodup : (cs : List CompTy) → HSeq cs → Prop
  | [], _ => True
  | _ :: cs, ss => (ss.1.map Prod.fst).Nodup ∧ SeqKeysNodup cs ss.2

/-- All entity identifiers appearing in any component sequence. -/
def snapIds : (cs : List CompTy) → HSeq cs → List Nat
  | [], _ => []
  | _ :: cs, ss => ss.1.map Prod.fst ++ snapIds cs ss.2

/-- Per declared component type, the two stores attach the same component
values to the same entities. -/
def HMapEquiv : (cs : List CompTy) → HMap cs → HMap cs → Prop
  | [], _, _ => True
  | _ :: cs, ms, ns => (∀ e, ms.1 e = ns.1 e) ∧ HMapEquiv cs ms.2 ns.2

/-- Per declared context type, the two stores agree on presence and
value. -/
def HCtxEquiv : (xs : List CompTy) → HCtx xs → HCtx xs → Prop
  | [], _, _ => True
  | _ :: xs, os, ps => os.1 = ps.1 ∧ HCtxEquiv xs os.2 ps.2

/-- Structural equality of stores: the same set of live entities, the same
components with the same values per entity and type, the same context
variables. -/
def StoreEquiv {cs xs : List CompTy} (S T : Store cs xs) : Prop :=
  (∀ e, e ∈ S.entities ↔ e ∈ T.entities) ∧
    HMapEquiv cs S.comps T.comps ∧ HCtxEquiv xs S.ctxv T.ctxv

/-- First-match lookup of an identifier in a pair sequence. -/
def lookupId {α : Type} (e : Nat) : List (Nat × α) → Option α
  | [] => none
  | p :: r => if p.1 = e then some p.2 else lookupId e r

/-- What the rebuild loop guarantees per component type: the rebuilt store
attaches to each entity exactly the value its sequence records for it, and
nothing when the entity is not in the sequence. -/
def RebuildMaps : (cs : List CompTy) → HSeq cs → HMap cs → Prop
  | [], _, _ => True
  | _ :: cs, ss, ms =>
    (∀ e, ms.1 e = lookupId e ss.1) ∧ RebuildMaps cs ss.2 ms.2

/-- Counterexample store for C1: one live entity holding none of the
declared component types. -/
def storeC1 : Store [natC] [] :=
  ⟨[1], (fun _ => none, PUnit.unit), PUnit.unit⟩

/-- Witness store for the amended C1: one entity with a component and one
context variable present. -/
def storeC1w : Store [natC] [natC] :=
  ⟨[1], (fun e => if e = 1 then some 7 else none, PUnit.unit),
    (some 3, PUnit.unit)⟩

/-- A concrete archived stream: one component sequence of length one
(entity 5, value 7), then one present context variable of value 9. -/
def tsC2 : List Token :=
  [Token.num 1, Token.num 5, Token.num 7, Token.bool true, Token.num 9]

/-- The snapshot tsC2 decodes to. -/
def snapC2 : HSeq [natC] × HCtx [natC] :=
  (([(5, 7)], PUnit.unit), (some 9, PUnit.unit))

/-- Witness store for C8 and C9: two entities, only the first holding a
component. -/
def storeC9 : Store [natC] [natC] :=
  ⟨[1, 2], (fun e => if e = 1 then some 7 else none, PUnit.unit),
    (none, PUnit.unit)⟩

theorem natCodec_lawful : natCodec.lawful := by
  intro a rest
  simp [natCodec, Codec.lawful]

theorem loadOptional_saveOptional {α : Type} (c : Codec α) (hc : c.lawful)
    (dest o : Option α) (rest : List Token) :
    loadOptional c dest (saveOptional c o ++ rest) = some (o, rest) := by
  cases o with
  | none => simp [saveOptional, loadOptional]
  | some v => simp [saveOptional, loadOptional, hc v rest]

theorem optionalCodec_lawful {α : Type} (c : Codec α) (hc : c.lawful) :
    (optionalCodec c).lawful := by
  intro o rest
  exact loadOptional_saveOptional c hc none o rest

/-- Claim C3: encoding an entity identifier as its 32-bit integer pattern
and decoding it back reconstructs the identical bit pattern — version bits
included, since the whole 32-bit word round-trips. -/
theorem entity_codec_roundtrip (e : Nat) (he : e < 4294967296)
    (rest : List Token) :
    loadEntity (saveEntity e ++ rest) = some (e, rest) := by
  simp [saveEntity, loadEntity, Nat.mod_eq_of_lt he]

/-- Witness for C3 at an identifier with nonzero version bits
(version 3 in the upper 12 bits, index 5 in the lower 20). -/
theorem entity_codec_roundtrip_witness :
    3 * 1048576 + 5 < 4294967296 ∧
      loadEntity (saveEntity (3 * 1048576 + 5) ++ []) =
        some (3 * 1048576 + 5, []) :=
  ⟨by decide, entity_codec_roundtrip (3 * 1048576 + 5) (by decide) []⟩

/-- Claim C4: the optional codec writes a presence flag, followed by the
payload encoding exactly when the value is present and by nothing when it
is absent; decoding reads a payload iff the flag is true; and the scheme
composes for nested optional-of-optional values (both the induced codec
and its self-composition are lawful). -/
theorem optional_codec_spec {α : Type} (c : Codec α) (hc : c.lawful) :
    saveOptional c none = [Token.bool false] ∧
      (∀ v : α, saveOptional c (some v) = Token.bool true :: c.enc v) ∧
      (∀ dest ts, loadOptional c dest (Token.bool false :: ts) =
        some (none, ts)) ∧
      (∀ dest ts, loadOptional c dest (Token.bool true :: ts) =
        match c.dec ts with
        | some (v, ts1) => some (some v, ts1)
        | none => none) ∧
      (optionalCodec c).lawful ∧ (optionalCodec (optionalCodec c)).lawful := by
  refine ⟨rfl, fun v => rfl, fun dest ts => rfl, fun dest ts => rfl, ?_, ?_⟩
  · exact optionalCodec_lawful c hc
  · exact optionalCodec_lawful _ (optionalCodec_lawful c hc)

/-- Witness for C4 at the natural-number codec: a nested
optional-of-optional value round-trips through the composed codec. -/
theorem optional_codec_spec_witness :
    natCodec.lawful ∧
      (optionalCodec (optionalCodec natCodec)).dec
          ((optionalCodec (optionalCodec natCodec)).enc (some (some 7)) ++ []) =
        some (some (some 7), []) :=
  ⟨natCodec_lawful,
    (optional_codec_spec natCodec natCodec_lawful).2.2.2.2.2 (some (some 7)) []⟩

/-- Claim C10: the post-state of loading an optional is fully determined by
the input tokens: the prior contents of the destination are ignored, an encoded
absent optional leaves the destination empty, and an encoded present
optional leaves it holding exactly the decoded value. -/
theorem load_optional_overwrites_destination {α : Type} (c : Codec α)
    (hc : c.lawful) :
    (∀ (dest dest1 : Option α) (ts : List Token),
        loadOptional c dest ts = loadOptional c dest1 ts) ∧
      (∀ (dest : Option α) (o : Option α) (rest : List Token),
        loadOptional c dest (saveOptional c o ++ rest) = some (o, rest)) := by
  refine ⟨fun dest dest1 ts => rfl, ?_⟩
  intro dest o rest
  exact loadOptional_saveOptional c hc dest o rest

/-- Witness for C10 at the natural-number codec: decoding an encoded-absent
optional into a destination that already holds a value resets it. -/
theorem load_optional_overwrites_destination_witness :
    natCodec.lawful ∧
      loadOptional natCodec (some 5) (saveOptional natCodec none ++ []) =
        some (none, []) :=
  ⟨natCodec_lawful,
    (load_optional_overwrites_destination natCodec natCodec_lawful).2
      (some 5) none []⟩

theorem foldl_appendRow_snd {cs xs : List CompTy} (es : List Nat)
    (acc : HSeq cs) (st : Store cs xs) :
    (es.foldl (fun p e => (appendRow cs p.2.comps e p.1, p.2)) (acc, st)).2
      = st := by
  induction es generalizing acc with
  | nil => rfl
  | cons a es ih => exact ih _

theorem foldl_appendRow_fst {cs xs : List CompTy} (es : List Nat)
    (acc : HSeq cs) (st : Store cs xs) :
    (es.foldl (fun p e => (appendRow cs p.2.comps e p.1, p.2)) (acc, st)).1
      = es.foldl (fun a e => appendRow cs st.comps e a) acc := by
  induction es generalizing acc with
  | nil => rfl
  | cons a es ih => exact ih _

theorem foldl_appendRow_cons (c : CompTy) (cs : List CompTy)
    (f : Nat → Option c.carrier) (fs : HMap cs) (es : List Nat)
    (s0 : List (Nat × c.carrier)) (ss0 : HSeq cs) :
    es.foldl (fun a e => appendRow (c :: cs) (f, fs) e a) (s0, ss0)
      = (es.foldl (seqStep c f) s0,
         es.foldl (fun a e => appendRow cs fs e a) ss0) := by
  induction es generalizing s0 ss0 with
  | nil => rfl
  | cons a es ih => exact ih _ _

theorem buildComponents_eq_foldl :
    (cs : List CompTy) → (ms : HMap cs) → (es : List Nat) →
      buildComponents cs ms es
        = es.foldl (fun a e => appendRow cs ms e a) (emptyHSeq cs)
  | [], _, es => Subsingleton.elim _ _
  | c :: cs, ms, es => by
    rw [show (ms : HMap (c :: cs)) = (ms.1, ms.2) from rfl,
      foldl_appendRow_cons]
    exact congrArg _ (buildComponents_eq_foldl cs ms.2 es)

/-- The state-passing capture agrees with the value-level one and returns
the registry it was given. -/
theorem serialize_registry_s_eq {cs xs : List CompTy} (S : Store cs xs) :
    serialize_registry_s S = (serialize_registry S, S) := by
  simp only [serialize_registry_s, regEach, foldl_appendRow_snd,
    foldl_appendRow_fst, ← buildComponents_eq_foldl]
  rfl

/-- Claim C7: `serialize_registry` does not mutate the source store — the
state threaded through the capture comes back exactly as it went in. -/
theorem serialize_does_not_mutate {cs xs : List CompTy} (S : Store cs xs) :
    (serialize_registry_s S).2 = S := by
  unfold serialize_registry_s regEach
  exact foldl_appendRow_snd S.entities (emptyHSeq cs) S

/-- Claim C6: when `deserialize_registry` fails, the pre-existing store is
left completely untouched (the archive is read before the registry is
reset, so a failed read leaves the registry as it was — in particular it
is never left partially populated). -/
theorem failed_restore_leaves_store_untouched (cs xs : List CompTy)
    (old : Store cs xs) (ts : List Token)
    (h : (deserialize_registry cs xs old ts).2 = false) :
    (deserialize_registry cs xs old ts).1 = old := by
  unfold deserialize_registry at h ⊢
  cases hd : decodeSnapshot cs xs ts with
  | none => simp [hd]
  | some v => simp [hd] at h

/-- Witness for C6: a truncated (empty) stream fails and leaves the target
store untouched. -/
theorem failed_restore_leaves_store_untouched_witness :
    (deserialize_registry [natC] [] (emptyStore [natC] []) []).2 = false ∧
      (deserialize_registry [natC] [] (emptyStore [natC] []) []).1
        = emptyStore [natC] [] :=
  ⟨rfl,
    failed_restore_leaves_store_untouched [natC] [] (emptyStore [natC] []) []
      rfl⟩

/-- Counterexample to claim C5: a stream captured under a one-component
schema and restored under a zero-component schema does not structurally
match the declared type lists (wrong count), yet `deserialize_registry`
completes successfully — there is no `SchemaMismatch` detection anywhere
in the code — and silently yields a store that lost the entity. -/
theorem schema_mismatch_not_detected :
    (deserialize_registry [] [] (emptyStore [] [])
        (serialize_registry storeC5)).2 = true ∧
      (deserialize_registry [] [] (emptyStore [] [])
          (serialize_registry storeC5)).1.entities = [] := by
  constructor <;> rfl

/-- Amended claim C5: the only failures `deserialize_registry` reports are
token-level read failures (truncation); a truncated stream fails and
leaves the store untouched, while structurally mismatched streams that
still satisfy every token read are accepted without any schema check. -/
theorem truncated_stream_fails (c : CompTy) (cs xs : List CompTy)
    (old : Store (c :: cs) xs) :
    deserialize_registry (c :: cs) xs old [] = (old, false) := rfl

theorem loadEntity_saveEntity (e : Nat) (he : e < 4294967296)
    (rest : List Token) :
    loadEntity (saveEntity e ++ rest) = some (e, rest) := by
  simp [saveEntity, loadEntity, Nat.mod_eq_of_lt he]

theorem foldl_seqStep_eq (c : CompTy) (f : Nat → Option c.carrier) :
    ∀ (es : List Nat) (acc : List (Nat × c.carrier)),
      es.foldl (seqStep c f) acc
        = acc ++ es.filterMap (fun e => (f e).map
            (fun v => (e, if c.isEmptyTy then c.defaultVal else v)))
  | [], acc => by simp
  | a :: es, acc => by
    cases h : f a with
    | none =>
      simp only [List.foldl_cons, seqStep, h, List.filterMap_cons]
      exact foldl_seqStep_eq c f es acc
    | some v =>
      simp only [List.foldl_cons, seqStep, h, List.filterMap_cons,
        Option.map_some]
      rw [foldl_seqStep_eq c f es (acc ++ [(a, _)])]
      simp

theorem buildSeq_eq_filterMap (c : CompTy) (f : Nat → Option c.carrier)
    (es : List Nat) :
    buildSeq c f es
      = es.filterMap (fun e => (f e).map
          (fun v => (e, if c.isEmptyTy then c.defaultVal else v))) := by
  simpa using foldl_seqStep_eq c f es []

theorem buildSeq_keys (c : CompTy) (f : Nat → Option c.carrier)
    (es : List Nat) :
    (buildSeq c f es).map Prod.fst = es.filter (fun e => (f e).isSome) := by
  rw [buildSeq_eq_filterMap]
  induction es with
  | nil => simp
  | cons a es ih =>
    cases h : f a with
    | none => simp [List.filterMap_cons, h, List.filter_cons, ih]
    | some v => simp [List.filterMap_cons, h, List.filter_cons, ih]

theorem mem_snapIds_build :
    (cs : List CompTy) → (ms : HMap cs) → (es : List Nat) → (x : Nat) →
      (x ∈ snapIds cs (buildComponents cs ms es)
        ↔ x ∈ es ∧ HasSomeComp cs ms x)
  | [], _, es, x => by simp [snapIds, buildComponents, HasSomeComp]
  | c :: cs, ms, es, x => by
    simp only [snapIds, buildComponents, HasSomeComp, List.mem_append,
      buildSeq_keys, List.mem_filter, mem_snapIds_build cs ms.2 es x]
    tauto

theorem decodePairs_encode (c : CompTy) (hc : c.codec.lawful) :
    ∀ (s : List (Nat × c.carrier)), (∀ p ∈ s, p.1 < 4294967296) →
      ∀ rest : List Token,
        decodePairs c s.length
          ((s.map (fun p => saveEntity p.1 ++ c.codec.enc p.2)).flatten
            ++ rest)
          = some (s, rest)
  | [], _, rest => rfl
  | p :: s, hb, rest => by
    have hp : p.1 < 4294967296 := hb p (by simp)
    have ih := decodePairs_encode c hc s (fun q hq => hb q (by simp [hq])) rest
    simp only [List.map_cons, List.flatten_cons, List.length_cons,
      List.append_assoc]
    simp only [decodePairs, loadEntity_saveEntity p.1 hp, hc p.2, ih]

theorem decodeSeq_encodeSeq (c : CompTy) (hc : c.codec.lawful)
    (s : List (Nat × c.carrier)) (hb : ∀ p ∈ s, p.1 < 4294967296)
    (rest : List Token) :
    decodeSeq c (encodeSeq c s ++ rest) = some (s, rest) := by
  simp only [encodeSeq, List.cons_append, decodeSeq]
  exact decodePairs_encode c hc s hb rest

theorem decodeComponents_encode :
    (cs : List CompTy) → SchemaOk cs → (ss : HSeq cs) →
      (∀ e ∈ snapIds cs ss, e < 4294967296) → ∀ rest : List Token,
        decodeComponents cs (encodeComponents cs ss ++ rest) = some (ss, rest)
  | [], _, _, _, rest => rfl
  | c :: cs, hok, ss, hb, rest => by
    have hb1 : ∀ p ∈ ss.1, p.1 < 4294967296 := fun p hp =>
      hb p.1 (by simp [snapIds]; exact Or.inl ⟨p.2, hp⟩)
    have hb2 : ∀ e ∈ snapIds cs ss.2, e < 4294967296 := fun e he =>
      hb e (by simp [snapIds, he])
    simp only [encodeComponents, List.append_assoc, decodeComponents,
      decodeSeq_encodeSeq c hok.1 ss.1 hb1,
      decodeComponents_encode cs hok.2.2 ss.2 hb2 rest]

theorem decodeCtx_encode :
    (xs : List CompTy) → SchemaOk xs → (os : HCtx xs) →
      ∀ rest : List Token,
        decodeCtx xs (encodeCtx xs os ++ rest) = some (os, rest)
  | [], _, _, rest => rfl
  | x :: xs, hok, os, rest => by
    simp only [encodeCtx, List.append_assoc, decodeCtx,
      loadOptional_saveOptional x.codec hok.1 none os.1,
      decodeCtx_encode xs hok.2.2 os.2 rest]

theorem decodeSnapshot_serialize {cs xs : List CompTy} (hcs : SchemaOk cs)
    (hxs : SchemaOk xs) (S : Store cs xs)
    (hb : ∀ e ∈ snapIds cs (buildSnapshot S).1, e < 4294967296) :
    decodeSnapshot cs xs (serialize_registry S)
      = some (buildSnapshot S, []) := by
  have h2 := decodeCtx_encode xs hxs (buildSnapshot S).2 []
  rw [List.append_nil] at h2
  simp only [serialize_registry, decodeSnapshot,
    decodeComponents_encode cs hcs (buildSnapshot S).1 hb, h2]

theorem lookupId_eq_none {α : Type} (e : Nat) :
    ∀ l : List (Nat × α), e ∉ l.map Prod.fst → lookupId e l = none
  | [], _ => rfl
  | p :: r, h => by
    simp only [List.map_cons, List.mem_cons] at h
    push_neg at h
    rw [lookupId, if_neg (fun hh => h.1 hh.symm)]
    exact lookupId_eq_none e r h.2

theorem applySeq_fst (c : CompTy) :
    ∀ (pairs : List (Nat × c.carrier)) (f : Nat → Option c.carrier)
      (es : List Nat) (e : Nat), (pairs.map Prod.fst).Nodup →
      (applySeq c pairs f es).1 e
        = match lookupId e pairs with
          | some v => some v
          | none => f e
  | [], f, es, e, _ => by simp [applySeq, lookupId]
  | p :: rest, f, es, e, hnd => by
    simp only [List.map_cons, List.nodup_cons] at hnd
    rw [applySeq,
      applySeq_fst c rest (applyPair c p f es).1 (applyPair c p f es).2 e
        hnd.2]
    by_cases he : p.1 = e
    · subst he
      rw [lookupId_eq_none p.1 rest hnd.1]
      simp [lookupId, applyPair]
    · rw [show lookupId e (p :: rest) = lookupId e rest from by
        rw [lookupId, if_neg he]]
      cases h : lookupId e rest with
      | some v => rfl
      | none => simp [applyPair, if_neg (Ne.symm he)]

theorem applySeq_snd (c : CompTy) :
    ∀ (pairs : List (Nat × c.carrier)) (f : Nat → Option c.carrier)
      (es : List Nat) (x : Nat),
      (x ∈ (applySeq c pairs f es).2 ↔ x ∈ es ∨ x ∈ pairs.map Prod.fst)
  | [], f, es, x => by simp [applySeq]
  | p :: rest, f, es, x => by
    rw [applySeq, applySeq_snd c rest _ _ x]
    have hmem : x ∈ (applyPair c p f es).2 ↔ x ∈ es ∨ x = p.1 := by
      by_cases hp : p.1 ∈ es
      · simp only [applyPair, if_pos hp]
        exact ⟨Or.inl, fun h => h.elim id (fun hx => hx ▸ hp)⟩
      · simp [applyPair, if_neg hp, List.mem_append]
    rw [hmem]
    simp only [List.map_cons, List.mem_cons]
    tauto

theorem rebuildComponents_fst :
    (cs : List CompTy) → (ss : HSeq cs) → SeqKeysNodup cs ss →
      (es0 : List Nat) →
      RebuildMaps cs ss (rebuildComponents cs ss (emptyMap cs) es0).1
  | [], _, _, _ => trivial
  | c :: cs, ss, hnd, es0 => by
    constructor
    · intro e
      show (applySeq c ss.1 (emptyMap (c :: cs)).1 es0).1 e = lookupId e ss.1
      rw [applySeq_fst c ss.1 _ _ e hnd.1]
      cases lookupId e ss.1 <;> rfl
    · exact rebuildComponents_fst cs ss.2 hnd.2 _

theorem rebuildComponents_snd :
    (cs : List CompTy) → (ss : HSeq cs) → (ms : HMap cs) →
      (es0 : List Nat) → (x : Nat) →
      (x ∈ (rebuildComponents cs ss ms es0).2
        ↔ x ∈ es0 ∨ x ∈ snapIds cs ss)
  | [], _, _, es0, x => by simp [rebuildComponents, snapIds]
  | c :: cs, ss, ms, es0, x => by
    rw [show (rebuildComponents (c :: cs) ss ms es0).2
        = (rebuildComponents cs ss.2 ms.2 (applySeq c ss.1 ms.1 es0).2).2
      from rfl]
    rw [rebuildComponents_snd cs ss.2 ms.2 _ x,
      applySeq_snd c ss.1 ms.1 es0 x]
    simp only [snapIds, List.mem_append]
    tauto

theorem buildCtx_eq : (xs : List CompTy) → (os : HCtx xs) →
    buildCtx xs os = os
  | [], _ => Subsingleton.elim _ _
  | x :: xs, os => by
    obtain ⟨o, os⟩ := os
    show ((match o with
      | some v => some v
      | none => none), buildCtx xs os) = (o, os)
    rw [buildCtx_eq xs os]
    cases o <;> rfl

theorem rebuildCtx_emptyCtx : (xs : List CompTy) → (os : HCtx xs) →
    rebuildCtx xs os (emptyCtx xs) = os
  | [], _ => Subsingleton.elim _ _
  | x :: xs, os => by
    obtain ⟨o, os⟩ := os
    show (set_context_var x none o, rebuildCtx xs os (emptyCtx xs)) = (o, os)
    rw [rebuildCtx_emptyCtx xs os]
    cases o <;> rfl

theorem buildSeq_cons_none (c : CompTy) (f : Nat → Option c.carrier)
    (a : Nat) (es : List Nat) (h : f a = none) :
    buildSeq c f (a :: es) = buildSeq c f es := by
  rw [buildSeq_eq_filterMap, buildSeq_eq_filterMap, List.filterMap_cons, h]
  rfl

theorem buildSeq_cons_some (c : CompTy) (f : Nat → Option c.carrier)
    (a : Nat) (es : List Nat) (v : c.carrier) (h : f a = some v) :
    buildSeq c f (a :: es)
      = (a, if c.isEmptyTy then c.defaultVal else v) :: buildSeq c f es := by
  rw [buildSeq_eq_filterMap, buildSeq_eq_filterMap, List.filterMap_cons, h]
  rfl

theorem lookupId_buildSeq (c : CompTy)
    (hemp : c.isEmptyTy = true → ∀ a b : c.carrier, a = b)
    (f : Nat → Option c.carrier) (es : List Nat) (hnd : es.Nodup) (e : Nat) :
    lookupId e (buildSeq c f es) = if e ∈ es then f e else none := by
  induction es with
  | nil => simp [buildSeq, lookupId]
  | cons a es ih =>
    rw [List.nodup_cons] at hnd
    cases h : f a with
    | none =>
      rw [buildSeq_cons_none c f a es h, ih hnd.2]
      by_cases he : e = a
      · subst he
        simp [h, hnd.1]
      · simp [List.mem_cons, he]
    | some v =>
      rw [buildSeq_cons_some c f a es v h, lookupId]
      by_cases he : a = e
      · rw [if_pos he]
        subst he
        rw [if_pos (List.mem_cons_self a es), h]
        by_cases hie : c.isEmptyTy
        · simp [hie, hemp hie c.defaultVal v]
        · simp [hie]
      · rw [if_neg he, ih hnd.2]
        have hne : e ≠ a := fun hh => he hh.symm
        simp [List.mem_cons, hne]

theorem rebuilt_maps_equiv :
    (cs : List CompTy) → SchemaOk cs → (ms : HMap cs) → (es : List Nat) →
      es.Nodup → HMapValid cs ms es → (es0 : List Nat) →
      HMapEquiv cs
        (rebuildComponents cs (buildComponents cs ms es)
          (emptyMap cs) es0).1 ms
  | [], _, _, _, _, _, _ => trivial
  | c :: cs, hok, ms, es, hnd, hval, es0 => by
    constructor
    · intro e
      show (applySeq c (buildSeq c ms.1 es) (emptyMap (c :: cs)).1 es0).1 e
        = ms.1 e
      have hkeys : ((buildSeq c ms.1 es).map Prod.fst).Nodup := by
        rw [buildSeq_keys]
        exact hnd.filter _
      rw [applySeq_fst c _ _ _ e hkeys,
        lookupId_buildSeq c hok.2.1 ms.1 es hnd e]
      by_cases he : e ∈ es
      · rw [if_pos he]
        cases ms.1 e <;> rfl
      · rw [if_neg he]
        cases h : ms.1 e with
        | none => rfl
        | some v => exact absurd (hval.1 e (by simp [h])) he
    · exact rebuilt_maps_equiv cs hok.2.2 ms.2 es hnd hval.2 _

theorem buildComponents_keys_nodup :
    (cs : List CompTy) → (ms : HMap cs) → (es : List Nat) → es.Nodup →
      SeqKeysNodup cs (buildComponents cs ms es)
  | [], _, _, _ => trivial
  | c :: cs, ms, es, hnd =>
    ⟨by
      show ((buildSeq c ms.1 es).map Prod.fst).Nodup
      rw [buildSeq_keys]
      exact hnd.filter _,
      buildComponents_keys_nodup cs ms.2 es hnd⟩

theorem HCtxEquiv_refl : (xs : List CompTy) → (os : HCtx xs) →
    HCtxEquiv xs os os
  | [], _ => trivial
  | _ :: xs, os => ⟨rfl, HCtxEquiv_refl xs os.2⟩

/-- The capture of a well-formed store decodes back to exactly the snapshot it
was built from, and the restore completes successfully on it. -/
theorem roundtrip_rebuild {cs xs : List CompTy} (hcs : SchemaOk cs)
    (hxs : SchemaOk xs) (S old : Store cs xs) (hwf : StoreWF S) :
    deserialize_registry cs xs old (serialize_registry S)
      = (rebuildStore cs xs (buildSnapshot S), true) := by
  have hb : ∀ e ∈ snapIds cs (buildSnapshot S).1, e < 4294967296 := by
    intro e he
    exact hwf.2.1 e ((mem_snapIds_build cs S.comps S.entities e).mp he).1
  simp [deserialize_registry, decodeSnapshot_serialize hcs hxs S hb]

/-- Counterexample to claim C1 as stated: capture-then-restore is not the
identity on every store — an entity that holds no declared component does
not survive the round trip, because restore only creates entities that
appear in some component sequence. -/
theorem roundtrip_drops_componentless_entity :
    ¬ StoreEquiv
      (deserialize_registry [natC] [] storeC1 (serialize_registry storeC1)).1
      storeC1 := by
  intro h
  have h1 := (h.1 1).mpr (by simp [storeC1])
  have h2 : (deserialize_registry [natC] [] storeC1
      (serialize_registry storeC1)).1.entities = [] := rfl
  rw [h2] at h1
  simp at h1

/-- Claim C1, amended: for a well-formed store every entity of which holds
at least one declared component, restoring the captured snapshot rebuilds
a store structurally equal to the original; entities holding no declared
component are dropped by the round trip (see the counterexample). -/
theorem roundtrip_identity_of_covered {cs xs : List CompTy}
    (hcs : SchemaOk cs) (hxs : SchemaOk xs) (S old : Store cs xs)
    (hwf : StoreWF S)
    (hcov : ∀ e ∈ S.entities, HasSomeComp cs S.comps e) :
    (deserialize_registry cs xs old (serialize_registry S)).2 = true ∧
      StoreEquiv
        (deserialize_registry cs xs old (serialize_registry S)).1 S := by
  rw [roundtrip_rebuild hcs hxs S old hwf]
  refine ⟨rfl, ?_, ?_, ?_⟩
  · intro e
    show e ∈ (rebuildComponents cs (buildSnapshot S).1 (emptyMap cs) []).2
      ↔ e ∈ S.entities
    rw [rebuildComponents_snd]
    constructor
    · rintro (h | h)
      · simp at h
      · exact ((mem_snapIds_build cs S.comps S.entities e).mp h).1
    · intro h
      exact Or.inr ((mem_snapIds_build cs S.comps S.entities e).mpr
        ⟨h, hcov e h⟩)
  · exact rebuilt_maps_equiv cs hcs S.comps S.entities hwf.1 hwf.2.2.2 []
  · show HCtxEquiv xs (rebuildCtx xs (buildSnapshot S).2 (emptyCtx xs)) S.ctxv
    rw [rebuildCtx_emptyCtx]
    show HCtxEquiv xs (buildCtx xs S.ctxv) S.ctxv
    rw [buildCtx_eq]
    exact HCtxEquiv_refl xs S.ctxv

theorem schemaOk_natC : SchemaOk [natC] :=
  ⟨natCodec_lawful, by simp, trivial⟩

theorem storeC1w_wf : StoreWF storeC1w := by
  refine ⟨by decide, by decide, by decide, ?_, trivial⟩
  intro e h
  by_cases he : e = 1
  · simp [storeC1w, he]
  · simp [storeC1w, he] at h

theorem storeC1w_cov :
    ∀ e ∈ storeC1w.entities, HasSomeComp [natC] storeC1w.comps e := by
  intro e he
  simp [storeC1w] at he
  subst he
  exact Or.inl (by simp [storeC1w])

/-- Witness for the amended C1 at a concrete covered store. -/
theorem roundtrip_identity_of_covered_witness :
    SchemaOk [natC] ∧ StoreWF storeC1w ∧
      (∀ e ∈ storeC1w.entities, HasSomeComp [natC] storeC1w.comps e) ∧
      ((deserialize_registry [natC] [natC] storeC1w
          (serialize_registry storeC1w)).2 = true ∧
        StoreEquiv
          (deserialize_registry [natC] [natC] storeC1w
            (serialize_registry storeC1w)).1 storeC1w) :=
  ⟨schemaOk_natC, storeC1w_wf, storeC1w_cov,
    roundtrip_identity_of_covered schemaOk_natC schemaOk_natC storeC1w
      storeC1w storeC1w_wf storeC1w_cov⟩

/-- Claim C2: on a snapshot the archive decodes (with identifiers unique
within each sequence, and distinct identifiers having distinct index
parts, as `entt` requires of restorable snapshots), `deserialize_registry`
completes and rebuilds a store whose entities are exactly the identifiers
appearing in some component sequence, each holding exactly the components
its sequences record — no declared type extra or missing — and whose
context variables match the optionals of the snapshot slot for slot. -/
theorem deserialize_rebuild_exact {cs xs : List CompTy}
    (old : Store cs xs) (ts : List Token) (snap : HSeq cs × HCtx xs)
    (rest : List Token)
    (hdec : decodeSnapshot cs xs ts = some (snap, rest))
    (hnd : SeqKeysNodup cs snap.1)
    (_hinj : idInj (snapIds cs snap.1)) :
    (deserialize_registry cs xs old ts).2 = true ∧
      (∀ x, x ∈ (deserialize_registry cs xs old ts).1.entities
        ↔ x ∈ snapIds cs snap.1) ∧
      RebuildMaps cs snap.1 (deserialize_registry cs xs old ts).1.comps ∧
      (deserialize_registry cs xs old ts).1.ctxv = snap.2 := by
  have hd : deserialize_registry cs xs old ts
      = (rebuildStore cs xs snap, true) := by
    simp [deserialize_registry, hdec]
  rw [hd]
  refine ⟨rfl, ?_, ?_, ?_⟩
  · intro x
    show x ∈ (rebuildComponents cs snap.1 (emptyMap cs) []).2
      ↔ x ∈ snapIds cs snap.1
    rw [rebuildComponents_snd]
    simp
  · exact rebuildComponents_fst cs snap.1 hnd []
  · exact rebuildCtx_emptyCtx xs snap.2

/-- Witness for C2 at the concrete stream tsC2. -/
theorem deserialize_rebuild_exact_witness :
    decodeSnapshot [natC] [natC] tsC2 = some (snapC2, []) ∧
      SeqKeysNodup [natC] snapC2.1 ∧ idInj (snapIds [natC] snapC2.1) ∧
      ((deserialize_registry [natC] [natC] (emptyStore [natC] [natC])
          tsC2).2 = true ∧
        (∀ x, x ∈ (deserialize_registry [natC] [natC]
            (emptyStore [natC] [natC]) tsC2).1.entities
          ↔ x ∈ snapIds [natC] snapC2.1) ∧
        RebuildMaps [natC] snapC2.1
          (deserialize_registry [natC] [natC] (emptyStore [natC] [natC])
            tsC2).1.comps ∧
        (deserialize_registry [natC] [natC] (emptyStore [natC] [natC])
            tsC2).1.ctxv = snapC2.2) := by
  have hdec : decodeSnapshot [natC] [natC] tsC2 = some (snapC2, []) := rfl
  have hnd : SeqKeysNodup [natC] snapC2.1 := ⟨by decide, trivial⟩
  have hinj : idInj (snapIds [natC] snapC2.1) := by decide
  exact ⟨hdec, hnd, hinj,
    deserialize_rebuild_exact (emptyStore [natC] [natC]) tsC2 snapC2 []
      hdec hnd hinj⟩

/-- Claim C8: in every snapshot captured from a store whose entity
enumeration has no duplicates (an `entt::registry` invariant), each
sequence of each component type mentions each entity identifier at most once. -/
theorem snapshot_seq_keys_nodup {cs xs : List CompTy} (S : Store cs xs)
    (h : S.entities.Nodup) :
    SeqKeysNodup cs (buildSnapshot S).1 :=
  buildComponents_keys_nodup cs S.comps S.entities h

/-- Witness for C8 at a concrete store. -/
theorem snapshot_seq_keys_nodup_witness :
    storeC9.entities.Nodup ∧ SeqKeysNodup [natC] (buildSnapshot storeC9).1 :=
  ⟨by decide, snapshot_seq_keys_nodup storeC9 (by decide)⟩

theorem storeC9_wf : StoreWF storeC9 := by
  refine ⟨by decide, by decide, by decide, ?_, trivial⟩
  intro e h
  by_cases he : e = 1
  · simp [storeC9, he]
  · simp [storeC9, he] at h

/-- Claim C9: an entity alive at capture time but holding none of the
declared component types does not exist in the store rebuilt by
`deserialize_registry` — restore only creates entities that appear in some
component sequence. -/
theorem componentless_entity_dropped {cs xs : List CompTy}
    (hcs : SchemaOk cs) (hxs : SchemaOk xs) (S old : Store cs xs)
    (hwf : StoreWF S) (e : Nat) (_he : e ∈ S.entities)
    (hnone : ¬ HasSomeComp cs S.comps e) :
    e ∉ (deserialize_registry cs xs old (serialize_registry S)).1.entities := by
  rw [roundtrip_rebuild hcs hxs S old hwf]
  intro hmem
  have hm : e ∈ ([] : List Nat) ∨ e ∈ snapIds cs (buildSnapshot S).1 :=
    (rebuildComponents_snd cs (buildSnapshot S).1 (emptyMap cs) [] e).mp hmem
  rcases hm with h | h
  · simp at h
  · exact hnone ((mem_snapIds_build cs S.comps S.entities e).mp h).2

/-- Witness for C9: entity 2 of storeC9 holds nothing and is gone after
the round trip. -/
theorem componentless_entity_dropped_witness :
    SchemaOk [natC] ∧ StoreWF storeC9 ∧ 2 ∈ storeC9.entities ∧
      ¬ HasSomeComp [natC] storeC9.comps 2 ∧
      2 ∉ (deserialize_registry [natC] [natC] storeC9
        (serialize_registry storeC9)).1.entities := by
  have hno : ¬ HasSomeComp [natC] storeC9.comps 2 := by
    intro h
    rcases h with h | h
    · simp [storeC9] at h
    · exact h
  exact ⟨schemaOk_natC, storeC9_wf, by decide, hno,
    componentless_entity_dropped schemaOk_natC schemaOk_natC storeC9 storeC9
      storeC9_wf 2 (by decide) hno⟩
